import Mathlib

/-! Shallow embedding of the swiftsc-cli command-line driver (src/main.rs) and of
the spec-described security analyzer interface it invokes.

The repository's only source file is the CLI shell.  Its pipeline stages
(tokenize, parse, analyze, compile, SecurityAnalyzer::analyze) live in the
external crates swiftsc_frontend / swiftsc_backend / swiftsc_analyzer and are
therefore modelled as fields of an environment record `Env`; the CLI dispatch
itself (`main`) is embedded as `runCmd`, which records every pipeline
invocation and every I/O effect as an `Event` in order, and returns the
`anyhow::Result<()>` of `main` as `Except String Unit`.  The Rust `match` in
`main` has no arm for `Commands::Deploy`, which `runCmd` reflects by
returning `none` on that constructor.
-/

namespace SwiftSC

/-- Opaque stand-in for the external `swiftsc_frontend` AST value; `dbg` is
its Rust debug rendering, used by the Parse arm's pretty print. -/
structure AST where
  dbg : String
deriving DecidableEq, Repr

/-- Opaque stand-in for a `swiftsc_analyzer` security warning; `dbg` is its
Rust debug rendering, printed by the Analyze arm. -/
structure Warning where
  dbg : String
deriving DecidableEq, Repr

/-- One observable step of `main`: a stdout line, a stderr line, a call into
one of the external pipeline crates, or a filesystem effect. -/
inductive Event where
  | out (s : String)
  | err (s : String)
  | parseCall (source : String)
  | analyzeCall (ast : AST) (root : Option String)
  | compileCall (ast : AST)
  | secCall (ast : AST)
  | fsWrite (path : String) (bytes : List Nat)
  | fsWriteStr (path : String) (content : String)
  | mkdir (path : String)
deriving DecidableEq, Repr

/-- The externally supplied behaviour: the filesystem and the pipeline crates
(`swiftsc_frontend::tokenize/parse/analyze`, `swiftsc_backend::compile`,
`swiftsc_analyzer::SecurityAnalyzer::analyze`).  Each field is an arbitrary
function because the crates are outside the visible repository. -/
structure Env where
  readFile : String → Except String String
  tokenize : String → List (String × String)
  parse : String → Except String AST
  analyze : AST → Option String → Except String String
  compile : AST → Except String (List Nat)
  secAnalyze : AST → List Warning
  writeBytes : String → List Nat → Except String Unit
  writeStr : String → String → Except String Unit
  createDir : String → Except String Unit
  dirExists : String → Bool

/-- The `clap` subcommand enumeration of src/main.rs, paths as strings. -/
inductive Commands where
  | lex (path : String)
  | parse (path : String)
  | check (path : String) (root : Option String)
  | build (path : String) (output : Option String) (root : Option String)
  | init (path : String)
  | test (path : String)
  | deploy (path : String) (network : String) (root : Option String)
  | analyze (path : String) (verbose : Bool)
deriving DecidableEq, Repr

/-- Index of the last dot in a character list (offset by the accumulator). -/
def lastDotIdxAux : List Char → Nat → Option Nat
  | [], _ => none
  | c :: rest, i =>
    match lastDotIdxAux rest (i + 1) with
    | some j => some j
    | none => if c == '.' then some i else none

/-- File stem per Rust `Path`: everything before the last dot, except that a
leading dot with no later dot yields no extension. -/
def stemChars (l : List Char) : List Char :=
  match lastDotIdxAux l 0 with
  | none => l
  | some 0 => l
  | some i => l.take i

/-- Rust `Path::with_extension`: replace the extension of the final path
component (used by the Build arm for the default output path). -/
def withExtension (p ext : String) : String :=
  let parts := p.splitOn ("/")
  let file := (parts.getLast?).getD ("")
  let dir := parts.dropLast
  let newFile := String.mk (stemChars file.toList) ++ "." ++ ext
  String.intercalate ("/") (dir ++ [newFile])

/-- Context message of the failed `std::fs::read_to_string` in every arm. -/
def readErrMsg (p e : String) : String :=
  "could not read file `" ++ p ++ "`: " ++ e

/-- Context message of the failed `std::fs::write` in the Build arm. -/
def writeErrMsg (p e : String) : String :=
  "could not write output file `" ++ p ++ "`: " ++ e

/-- The four pass-name lines the Analyze arm prints when `verbose` is set. -/
def verboseHeader (p : String) : List Event :=
  [Event.out ("--- Analyzing AST: " ++ p ++ " ---"),
   Event.out ("Pass 1: Reentrancy Detection"),
   Event.out ("Pass 2: Integer Overflow Check"),
   Event.out ("Pass 3: Uninitialized Storage Check")]

/-- The Analyze arm's report block: the empty-warnings line, or the count
line followed by one line per warning (`println` of `"  - {:?}"`). -/
def warningReport (ws : List Warning) : List Event :=
  if ws.isEmpty then
    [Event.out ("✓ No security issues found.")]
  else
    Event.out ("⚠️ Found " ++ toString ws.length ++ " security warnings:") ::
      ws.map (fun w => Event.out ("  - " ++ w.dbg))

/-- Content of the `SwiftSC-Lang.toml` written by the Init arm. -/
def configToml : String :=
  "[package]\nname = \"my-contract\"\nversion = \"1.0.3\"\n\n[dependencies]\n# stdlib is included by default\n\n[build]\ntarget = \"wasm32-unknown-unknown\"\ngas_metering = true\n"

/-- Content of the `src/contract.stc` example written by the Init arm. -/
def exampleContract : String :=
  "use std::math::sub;\nuse std::collections::HashMap;\n\ncontract MyContract \x7b\n    storage balances: HashMap<Address, u64>;\n\n    fn transfer(to: Address, amount: u64) -> Result<()> \x7b\n        let sender = caller();\n        let bal = self.balances.get(sender).unwrap_or(0);\n        \n        // V1.0.3 Safe Math\n        let new_bal = sub(bal, amount)?;\n        \n        self.balances.insert(sender, new_bal);\n        self.balances.insert(to, self.balances.get(to).unwrap_or(0) + amount);\n        \n        Ok(())\n    \x7d\n\x7d\n"

/-- The embedding of `fn main` of src/main.rs: dispatch on the parsed
subcommand, producing the ordered event trace and `main`'s result.  The Rust
`match` has no `Commands::Deploy` arm, so `deploy` maps to `none`. -/
def runCmd (env : Env) : Commands → Option (List Event × Except String Unit)
  | Commands.lex p =>
    match env.readFile p with
    | Except.error e => some ([], Except.error (readErrMsg p e))
    | Except.ok content =>
      some (Event.out ("--- Lexing: " ++ p ++ " ---") ::
        (env.tokenize content).map (fun ts => Event.out (ts.2 ++ " => " ++ ts.1)),
        Except.ok ())
  | Commands.parse p =>
    match env.readFile p with
    | Except.error e => some ([], Except.error (readErrMsg p e))
    | Except.ok content =>
      some (Event.out ("--- Parsing: " ++ p ++ " ---") :: Event.parseCall content ::
        (match env.parse content with
         | Except.ok ast => [Event.out ast.dbg]
         | Except.error e => [Event.err ("Error: " ++ e)]),
        Except.ok ())
  | Commands.check p root =>
    match env.readFile p with
    | Except.error e => some ([], Except.error (readErrMsg p e))
    | Except.ok content =>
      some (Event.parseCall content ::
        (match env.parse content with
         | Except.ok ast =>
           Event.analyzeCall ast root ::
             (match env.analyze ast root with
              | Except.ok _ => [Event.out ("Semantic Check Passed")]
              | Except.error e => [Event.err ("Semantic Error: " ++ e)])
         | Except.error e => [Event.err ("Parse Error: " ++ e)]),
        Except.ok ())
  | Commands.build p output root =>
    match env.readFile p with
    | Except.error e => some ([], Except.error (readErrMsg p e))
    | Except.ok content =>
      match env.parse content with
      | Except.error e =>
        some ([Event.out ("--- Compiling: " ++ p ++ " ---"), Event.parseCall content,
               Event.err ("Parse Error: " ++ e)], Except.ok ())
      | Except.ok ast =>
        match env.analyze ast root with
        | Except.error e =>
          some ([Event.out ("--- Compiling: " ++ p ++ " ---"), Event.parseCall content,
                 Event.analyzeCall ast root, Event.err ("Semantic Error: " ++ e)],
                Except.ok ())
        | Except.ok _ =>
          match env.compile ast with
          | Except.error e =>
            some ([Event.out ("--- Compiling: " ++ p ++ " ---"), Event.parseCall content,
                   Event.analyzeCall ast root, Event.compileCall ast,
                   Event.err ("Codegen Error: " ++ e)], Except.ok ())
          | Except.ok bytes =>
            let q := output.getD (withExtension p ("wasm"))
            match env.writeBytes q bytes with
            | Except.error e =>
              some ([Event.out ("--- Compiling: " ++ p ++ " ---"), Event.parseCall content,
                     Event.analyzeCall ast root, Event.compileCall ast,
                     Event.fsWrite q bytes], Except.error (writeErrMsg q e))
            | Except.ok _ =>
              some ([Event.out ("--- Compiling: " ++ p ++ " ---"), Event.parseCall content,
                     Event.analyzeCall ast root, Event.compileCall ast,
                     Event.fsWrite q bytes, Event.out ("Build Successful: " ++ q)],
                    Except.ok ())
  | Commands.init p =>
    match env.createDir (p ++ "/src") with
    | Except.error e =>
      some ([Event.out ("--- Initializing SwiftSC-Lang project in: " ++ p ++ " ---"),
             Event.mkdir (p ++ "/src")], Except.error e)
    | Except.ok _ =>
      match env.createDir (p ++ "/tests") with
      | Except.error e =>
        some ([Event.out ("--- Initializing SwiftSC-Lang project in: " ++ p ++ " ---"),
               Event.mkdir (p ++ "/src"), Event.mkdir (p ++ "/tests")], Except.error e)
      | Except.ok _ =>
        match env.writeStr (p ++ "/SwiftSC-Lang.toml") configToml with
        | Except.error e =>
          some ([Event.out ("--- Initializing SwiftSC-Lang project in: " ++ p ++ " ---"),
                 Event.mkdir (p ++ "/src"), Event.mkdir (p ++ "/tests"),
                 Event.fsWriteStr (p ++ "/SwiftSC-Lang.toml") configToml], Except.error e)
        | Except.ok _ =>
          match env.writeStr (p ++ "/src/contract.stc") exampleContract with
          | Except.error e =>
            some ([Event.out ("--- Initializing SwiftSC-Lang project in: " ++ p ++ " ---"),
                   Event.mkdir (p ++ "/src"), Event.mkdir (p ++ "/tests"),
                   Event.fsWriteStr (p ++ "/SwiftSC-Lang.toml") configToml,
                   Event.fsWriteStr (p ++ "/src/contract.stc") exampleContract],
                  Except.error e)
          | Except.ok _ =>
            some ([Event.out ("--- Initializing SwiftSC-Lang project in: " ++ p ++ " ---"),
                   Event.mkdir (p ++ "/src"), Event.mkdir (p ++ "/tests"),
                   Event.fsWriteStr (p ++ "/SwiftSC-Lang.toml") configToml,
                   Event.fsWriteStr (p ++ "/src/contract.stc") exampleContract,
                   Event.out ("✓ Project initialized successfully!"),
                   Event.out ("  - SwiftSC-Lang.toml"),
                   Event.out ("  - src/contract.stc"),
                   Event.out ("  - tests/")], Except.ok ())
  | Commands.test p =>
    some (Event.out ("--- Running tests in: " ++ p ++ " ---") ::
      (if env.dirExists (p ++ "/tests") then
        [Event.out ("✓ Test directory found"),
         Event.out ("  (Test execution not yet implemented)")]
       else
        [Event.err ("✗ No tests directory found")]),
      Except.ok ())
  | Commands.deploy _ _ _ => none
  | Commands.analyze p v =>
    match env.readFile p with
    | Except.error e => some ([], Except.error (readErrMsg p e))
    | Except.ok content =>
      some (Event.parseCall content ::
        (match env.parse content with
         | Except.ok ast =>
           (if v then verboseHeader p else []) ++
             Event.secCall ast :: warningReport (env.secAnalyze ast)
         | Except.error e => [Event.err ("✗ Parse error: " ++ e)]),
        Except.ok ())

/-- Effect of one event on a modelled filesystem (path to content map);
`fsWriteStr` overwrites whatever was there, like `std::fs::write`. -/
def applyEvent (fs : String → Option String) : Event → (String → Option String)
  | Event.fsWriteStr q c => fun x => if x = q then some c else fs x
  | _ => fs

/-- Fold a whole event trace over the modelled filesystem, left to right. -/
def applyEvents (fs : String → Option String) : List Event → (String → Option String)
  | [] => fs
  | e :: rest => applyEvents (applyEvent fs e) rest

/-- Projection selecting the bytecode file writes of a trace. -/
def fsWriteOf : Event → Option (String × List Nat)
  | Event.fsWrite q bs => some (q, bs)
  | _ => none

/-- Erase the root argument recorded on semantic-analysis invocations; used
to state that the root option influences nothing but that invocation. -/
def scrubRoot : Event → Event
  | Event.analyzeCall a _ => Event.analyzeCall a none
  | e => e

/-- Modelled from the spec: the data-flow-relevant instructions of a lowered
function body (§3 Data-Flow Fact, §4.3) — storage-slot reads and writes,
call-sites classified internal/external, and everything else.  The analyzer
crate `swiftsc_analyzer` is not in the visible repository. -/
inductive Instr where
  | readSlot (s : Nat)
  | writeSlot (s : Nat)
  | extCall
  | intCall
  | other
deriving DecidableEq, Repr

/-- Modelled from the spec: a Function's control-flow graph (§3 Basic Block,
§4.3) — a flat indexed vector of basic blocks, each an ordered instruction
list, with edges as index pairs; entry is block 0.  The CFG builder lives in
the unimplemented core, not in the visible repository. -/
structure Cfg where
  blocks : List (List Instr)
  edges : List (Nat × Nat)
deriving DecidableEq, Repr

/-- Well-formed CFG: every edge connects existing blocks. -/
def WF (g : Cfg) : Prop :=
  ∀ e ∈ g.edges, e.1 < g.blocks.length ∧ e.2 < g.blocks.length

/-- Successor blocks of a block, read off the edge list. -/
def succsOf (g : Cfg) (b : Nat) : List Nat :=
  (g.edges.filter (fun e => e.1 == b)).map (fun e => e.2)

/-- The instruction list of block `b` (empty for an out-of-range index). -/
def blockAt (g : Cfg) (b : Nat) : List Instr :=
  (g.blocks.get? b).getD []

/-- A walk in the CFG: consecutive entries joined by edges. -/
def IsWalk (g : Cfg) (l : List Nat) : Prop :=
  List.Chain' (fun a b => (a, b) ∈ g.edges) l

/-- Block `b2` is reachable from `b1`: some walk starts at `b1` and ends at
`b2` (the one-element walk gives reflexivity). -/
def ReachesDecl (g : Cfg) (b1 b2 : Nat) : Prop :=
  ∃ l, IsWalk g l ∧ l.head? = some b1 ∧ l.getLast? = some b2

/-- Fuel-bounded executable reachability between blocks. -/
def reachB (g : Cfg) : Nat → Nat → Nat → Bool
  | 0, a, b => a == b
  | n + 1, a, b => a == b || (succsOf g a).any (fun m => reachB g n m b)

/-- A program point: block index and instruction index within the block. -/
abbrev Point : Type := Nat × Nat

/-- The instruction at a program point, when the point is in range. -/
def instrAt? (g : Cfg) (P : Point) : Option Instr :=
  (blockAt g P.1).get? P.2

/-- Modelled from the spec: program point `Q` follows program point `P` in
program order along some control-flow path (§4.4 Reentrancy pass) — either
later in the same block, or in a block reachable through at least one edge. -/
def FollowsDecl (g : Cfg) (P Q : Point) : Prop :=
  (P.1 = Q.1 ∧ P.2 < Q.2) ∨ ∃ m, (P.1, m) ∈ g.edges ∧ ReachesDecl g m Q.1

/-- Executable counterpart of `FollowsDecl`, with fuel `g.blocks.length`. -/
def followsB (g : Cfg) (P Q : Point) : Bool :=
  (P.1 == Q.1 && decide (P.2 < Q.2)) ||
    (succsOf g P.1).any (fun m => reachB g g.blocks.length m Q.1)

/-- All in-range program points of the CFG, block-major, no duplicates. -/
def points (g : Cfg) : List Point :=
  (List.range g.blocks.length).flatMap
    (fun b => (List.range (blockAt g b).length).map (fun i => (b, i)))

/-- Does the point hold an external call-site? -/
def isExtB : Option Instr → Bool
  | some Instr.extCall => true
  | _ => false

/-- Does the point hold a read of slot `s`? -/
def isReadOfB : Option Instr → Nat → Bool
  | some (Instr.readSlot t), s => t == s
  | _, _ => false

/-- Modelled from the spec: the Reentrancy pass condition on a pair of a
call-site `c` and a write `w` (§4.4) — `c` is an external call-site on a
path reachable from entry, `w` writes a slot after `c` on some path, and
that slot was read before `c` on some reachable path. -/
def reentryCondB (g : Cfg) (c w : Point) : Bool :=
  isExtB (instrAt? g c) && reachB g g.blocks.length 0 c.1 &&
    (match instrAt? g w with
     | some (Instr.writeSlot s) =>
       followsB g c w &&
         (points g).any (fun r =>
           isReadOfB (instrAt? g r) s && reachB g g.blocks.length 0 r.1 &&
             followsB g r c)
     | _ => false)

/-- Modelled from the spec: the Reentrancy pass of the Security Analyzer
(§4.4, §8) — one Finding per offending (call-site, write) pair, represented
by the pair of program points; duplicates across multiple paths are
impossible because each pair is examined once. -/
def reentrancyFindings (g : Cfg) : List (Point × Point) :=
  ((points g).product (points g)).filter (fun cw => reentryCondB g cw.1 cw.2)

/-- Number of occurrences of `x` in `l` (propositional equality). -/
def countEq {α : Type} [DecidableEq α] (l : List α) (x : α) : Nat :=
  (l.filter (fun y => decide (y = x))).length

/-- Concrete environment in which every external operation succeeds; used to
instantiate the theorems below at a closed input. -/
def envW : Env where
  readFile := fun _ => Except.ok ("contract src")
  tokenize := fun _ => []
  parse := fun _ => Except.ok ⟨"Module"⟩
  analyze := fun _ _ => Except.ok ("resolved")
  compile := fun _ => Except.ok [0, 97, 115, 109]
  secAnalyze := fun _ => [⟨"Reentrancy"⟩, ⟨"Overflow"⟩]
  writeBytes := fun _ _ => Except.ok ()
  writeStr := fun _ _ => Except.ok ()
  createDir := fun _ => Except.ok ()
  dirExists := fun _ => true

/-- Concrete two-block CFG: block 0 reads slot 0 then makes an external
call, block 1 (the successor) writes slot 0. -/
def gW : Cfg where
  blocks := [[Instr.readSlot 0, Instr.extCall], [Instr.writeSlot 0]]
  edges := [(0, 1)]

lemma mem_succsOf {g : Cfg} {b m : Nat} : m ∈ succsOf g b ↔ (b, m) ∈ g.edges := by
  simp only [succsOf, List.mem_map, List.mem_filter, beq_iff_eq]
  constructor
  · rintro ⟨⟨x, y⟩, ⟨hmem, hx⟩, hy⟩
    subst hx
    subst hy
    exact hmem
  · intro h
    exact ⟨(b, m), ⟨h, rfl⟩, rfl⟩

lemma reaches_refl (g : Cfg) (a : Nat) : ReachesDecl g a a :=
  ⟨[a], List.chain'_singleton a, rfl, rfl⟩

lemma reaches_cons {g : Cfg} {a m b : Nat} (he : (a, m) ∈ g.edges)
    (h : ReachesDecl g m b) : ReachesDecl g a b := by
  obtain ⟨l, hw, hh, hl⟩ := h
  cases l with
  | nil => cases hh
  | cons x xs =>
    have hx : x = m := by simpa using hh
    subst hx
    refine ⟨a :: x :: xs, List.chain'_cons.mpr ⟨he, hw⟩, rfl, ?_⟩
    simpa [List.getLast?_cons_cons] using hl

lemma reachB_succ_iff {g : Cfg} {n a b : Nat} :
    reachB g (n + 1) a b = true ↔ a = b ∨ ∃ m ∈ succsOf g a, reachB g n m b = true := by
  simp [reachB]

lemma reachB_sound {g : Cfg} : ∀ {n a b : Nat}, reachB g n a b = true → ReachesDecl g a b := by
  intro n
  induction n with
  | zero =>
    intro a b h
    have hab : a = b := by simpa [reachB] using h
    subst hab
    exact reaches_refl g a
  | succ n ih =>
    intro a b h
    rw [reachB_succ_iff] at h
    rcases h with h | ⟨m, hm, hr⟩
    · subst h
      exact reaches_refl g a
    · exact reaches_cons (mem_succsOf.mp hm) (ih hr)

lemma reachB_succ {g : Cfg} : ∀ {n a b : Nat}, reachB g n a b = true → reachB g (n + 1) a b = true := by
  intro n
  induction n with
  | zero =>
    intro a b h
    have hab : a = b := by simpa [reachB] using h
    simp [reachB, hab]
  | succ n ih =>
    intro a b h
    rw [reachB_succ_iff] at h
    rw [reachB_succ_iff]
    rcases h with h | ⟨m, hm, hr⟩
    · exact Or.inl h
    · exact Or.inr ⟨m, hm, ih hr⟩

lemma reachB_mono {g : Cfg} {n n2 a b : Nat} (h : n ≤ n2)
    (hr : reachB g n a b = true) : reachB g n2 a b = true := by
  induction h with
  | refl => exact hr
  | step _ ih => exact reachB_succ ih

lemma reachB_refl (g : Cfg) (n a : Nat) : reachB g n a a = true := by
  cases n <;> simp [reachB]

lemma reachB_of_walk {g : Cfg} : ∀ (l : List Nat) (a b : Nat), IsWalk g l →
    l.head? = some a → l.getLast? = some b → reachB g (l.length - 1) a b = true := by
  intro l
  induction l with
  | nil =>
    intro a b _ hh _
    cases hh
  | cons x xs ih =>
    intro a b hw hh hl
    have hx : x = a := by simpa using hh
    subst hx
    cases xs with
    | nil =>
      have hab : x = b := by simpa using hl
      subst hab
      simp [reachB]
    | cons y ys =>
      have hw2 := List.chain'_cons.mp hw
      have hl2 : (y :: ys).getLast? = some b := by
        simpa [List.getLast?_cons_cons] using hl
      have hr : reachB g ((y :: ys).length - 1) y b = true := ih y b hw2.2 rfl hl2
      have hr2 : reachB g ys.length y b = true := by simpa using hr
      show reachB g ((x :: y :: ys).length - 1) x b = true
      simp only [List.length_cons, Nat.add_sub_cancel]
      rw [reachB_succ_iff]
      exact Or.inr ⟨y, mem_succsOf.mpr hw2.1, hr2⟩

lemma not_nodup_split {α : Type} : ∀ {l : List α}, ¬ l.Nodup →
    ∃ a l1 l2 l3, l = l1 ++ a :: (l2 ++ a :: l3) := by
  intro l
  induction l with
  | nil =>
    intro h
    exact absurd List.nodup_nil h
  | cons x xs ih =>
    intro h
    by_cases hx : x ∈ xs
    · obtain ⟨s, t, rfl⟩ := List.append_of_mem hx
      exact ⟨x, [], s, t, rfl⟩
    · have hxs : ¬ xs.Nodup := fun hn => h (List.nodup_cons.mpr ⟨hx, hn⟩)
      obtain ⟨a, l1, l2, l3, rfl⟩ := ih hxs
      exact ⟨a, x :: l1, l2, l3, rfl⟩

lemma walk_shorten {g : Cfg} : ∀ (n : Nat) (l : List Nat), l.length ≤ n → IsWalk g l →
    ∃ l2, IsWalk g l2 ∧ l2.Nodup ∧ l2.head? = l.head? ∧ l2.getLast? = l.getLast? := by
  intro n
  induction n with
  | zero =>
    intro l hl _
    have hnil : l = [] := List.length_eq_zero.mp (Nat.le_zero.mp hl)
    subst hnil
    exact ⟨[], List.chain'_nil, List.nodup_nil, rfl, rfl⟩
  | succ n ih =>
    intro l hl hw
    by_cases hnd : l.Nodup
    · exact ⟨l, hw, hnd, rfl, rfl⟩
    · obtain ⟨a, l1, l2, l3, rfl⟩ := not_nodup_split hnd
      have heq : l1 ++ a :: (l2 ++ a :: l3) = (l1 ++ a :: l2) ++ (a :: l3) := by simp
      have hw2 : List.Chain' (fun u v => (u, v) ∈ g.edges) ((l1 ++ a :: l2) ++ (a :: l3)) := by
        rw [← heq]
        exact hw
      obtain ⟨hc1, hc2, _⟩ := List.chain'_append.mp hw2
      obtain ⟨hc1a, _, hlink⟩ := List.chain'_append.mp hc1
      have hw3 : IsWalk g (l1 ++ a :: l3) := by
        refine List.chain'_append.mpr ⟨hc1a, hc2, ?_⟩
        intro x hx y hy
        have hy2 : a = y := by simpa using hy
        have hxa := hlink x hx a (by simp)
        rwa [hy2] at hxa
      have hlen : (l1 ++ a :: l3).length ≤ n := by
        simp only [List.length_append, List.length_cons] at hl ⊢
        omega
      obtain ⟨l4, hw4, hnd4, hh4, hl4⟩ := ih (l1 ++ a :: l3) hlen hw3
      refine ⟨l4, hw4, hnd4, ?_, ?_⟩
      · rw [hh4]
        cases l1 <;> simp
      · rw [hl4, heq, List.getLast?_append_cons, List.getLast?_append_cons]

lemma nodup_length_le {l : List Nat} {V : Nat} (hn : l.Nodup)
    (hlt : ∀ x ∈ l, x < V) : l.length ≤ V := by
  have h1 : l.toFinset.card = l.length := List.toFinset_card_of_nodup hn
  have h2 : l.toFinset ⊆ Finset.range V := by
    intro x hx
    rw [Finset.mem_range]
    exact hlt x (List.mem_toFinset.mp hx)
  have h3 := Finset.card_le_card h2
  rw [h1, Finset.card_range] at h3
  exact h3

lemma walk_elems_lt {g : Cfg} (hwf : WF g) : ∀ (l : List Nat), IsWalk g l →
    2 ≤ l.length → ∀ x ∈ l, x < g.blocks.length := by
  intro l
  induction l with
  | nil =>
    intro _ _ x hx
    cases hx
  | cons a xs ih =>
    intro hw h2 x hx
    cases xs with
    | nil => simp at h2
    | cons y ys =>
      have hca := List.chain'_cons.mp hw
      have ha : a < g.blocks.length := (hwf _ hca.1).1
      have hy : y < g.blocks.length := (hwf _ hca.1).2
      rcases List.mem_cons.mp hx with rfl | hx2
      · exact ha
      · cases ys with
        | nil =>
          have hxy : x = y := by simpa using hx2
          subst hxy
          exact hy
        | cons z zs =>
          exact ih hca.2 (by simp) x hx2

lemma reachB_complete {g : Cfg} {a b : Nat} (hwf : WF g) (h : ReachesDecl g a b) :
    reachB g g.blocks.length a b = true := by
  obtain ⟨l, hw, hh, hl⟩ := h
  obtain ⟨l2, hw2, hnd2, hh2, hl2⟩ := walk_shorten l.length l (le_refl _) hw
  rw [hh] at hh2
  rw [hl] at hl2
  cases l2 with
  | nil => cases hh2
  | cons x xs =>
    have hx : x = a := by simpa using hh2
    subst hx
    cases xs with
    | nil =>
      have hab : x = b := by simpa using hl2
      subst hab
      exact reachB_refl g _ x
    | cons y ys =>
      have hlt := walk_elems_lt hwf (x :: y :: ys) hw2 (by simp)
      have hlen : (x :: y :: ys).length ≤ g.blocks.length := nodup_length_le hnd2 hlt
      have hr := reachB_of_walk (x :: y :: ys) x b hw2 rfl hl2
      exact reachB_mono (Nat.le_trans (Nat.sub_le _ 1) hlen) hr

lemma reach_iff {g : Cfg} (hwf : WF g) {a b : Nat} :
    ReachesDecl g a b ↔ reachB g g.blocks.length a b = true :=
  ⟨reachB_complete hwf, reachB_sound⟩

lemma follows_iff {g : Cfg} (hwf : WF g) {P Q : Point} :
    FollowsDecl g P Q ↔ followsB g P Q = true := by
  simp only [FollowsDecl, followsB, Bool.or_eq_true, Bool.and_eq_true, beq_iff_eq,
    decide_eq_true_eq, List.any_eq_true]
  constructor
  · rintro (⟨h1, h2⟩ | ⟨m, hm, hr⟩)
    · exact Or.inl ⟨h1, h2⟩
    · exact Or.inr ⟨m, mem_succsOf.mpr hm, (reach_iff hwf).mp hr⟩
  · rintro (⟨h1, h2⟩ | ⟨m, hm, hr⟩)
    · exact Or.inl ⟨h1, h2⟩
    · exact Or.inr ⟨m, mem_succsOf.mp hm, (reach_iff hwf).mpr hr⟩

lemma mem_points {g : Cfg} {P : Point} :
    P ∈ points g ↔ P.1 < g.blocks.length ∧ P.2 < (blockAt g P.1).length := by
  simp only [points, List.mem_flatMap, List.mem_map, List.mem_range]
  constructor
  · rintro ⟨b, hb, i, hi, rfl⟩
    exact ⟨hb, hi⟩
  · rintro ⟨h1, h2⟩
    exact ⟨P.1, h1, P.2, h2, rfl⟩

lemma instrAt_mem_points {g : Cfg} {P : Point} {i : Instr} (h : instrAt? g P = some i) :
    P ∈ points g := by
  rw [mem_points]
  have h2 : P.2 < (blockAt g P.1).length := by
    by_contra hc
    push_neg at hc
    simp only [instrAt?] at h
    rw [List.get?_eq_none.mpr hc] at h
    cases h
  refine ⟨?_, h2⟩
  by_contra hc
  push_neg at hc
  have hnil : blockAt g P.1 = [] := by
    rw [blockAt, List.get?_eq_none.mpr hc]
    rfl
  rw [hnil] at h2
  simp at h2

lemma nodup_points (g : Cfg) : (points g).Nodup := by
  rw [points, List.nodup_flatMap]
  constructor
  · intro b _
    exact (List.nodup_range _).map (fun i j hij => by simpa using hij)
  · refine (List.pairwise_lt_range _).imp ?_
    intro b c hbc
    intro x hx1 hx2
    simp only [List.mem_map, List.mem_range] at hx1 hx2
    obtain ⟨i, _, rfl⟩ := hx1
    obtain ⟨j, _, hj⟩ := hx2
    have hcb : c = b := congrArg Prod.fst hj
    omega

lemma countEq_eq_one {α : Type} [DecidableEq α] {l : List α} {x : α}
    (hnd : l.Nodup) (hx : x ∈ l) : countEq l x = 1 := by
  induction l with
  | nil => cases hx
  | cons b t ih =>
    rcases List.mem_cons.mp hx with rfl | hx2
    · have hbt : x ∉ t := (List.nodup_cons.mp hnd).1
      have hft : t.filter (fun y => decide (y = x)) = [] := by
        rw [List.filter_eq_nil_iff]
        intro a ha
        simp only [decide_eq_true_eq]
        intro hab
        exact hbt (hab ▸ ha)
      simp [countEq, List.filter_cons, hft]
    · have hbx : ¬ (b = x) := by
        intro h
        exact (List.nodup_cons.mp hnd).1 (h ▸ hx2)
      have hih := ih (List.nodup_cons.mp hnd).2 hx2
      simp only [countEq, List.filter_cons] at hih ⊢
      simp [hbx, hih]

lemma countEq_eq_zero {α : Type} [DecidableEq α] {l : List α} {x : α}
    (hx : x ∉ l) : countEq l x = 0 := by
  have hfl : l.filter (fun y => decide (y = x)) = [] := by
    rw [List.filter_eq_nil_iff]
    intro a ha
    simp only [decide_eq_true_eq]
    intro h
    exact hx (h ▸ ha)
  simp [countEq, hfl]

/-- C7: for a Function whose CFG contains an external call-site at a
reachable program point `c` that is followed on some control-flow path by a
write `w` to a storage slot that was read before `c` on some reachable path,
the Reentrancy pass reports exactly one Finding for the pair `(c, w)`; and
it reports zero Findings for `(c, w)` when the write never follows the
call-site on any path (i.e. it happens only before it). -/
theorem c7_reentrancy_pair_unique (g : Cfg) (c w : Point) (s : Nat)
    (hwf : WF g)
    (hc : instrAt? g c = some Instr.extCall)
    (hreach : ReachesDecl g 0 c.1)
    (hw : instrAt? g w = some (Instr.writeSlot s)) :
    ((FollowsDecl g c w ∧ ∃ r, instrAt? g r = some (Instr.readSlot s) ∧
        ReachesDecl g 0 r.1 ∧ FollowsDecl g r c) →
      countEq (reentrancyFindings g) (c, w) = 1) ∧
    (¬ FollowsDecl g c w → countEq (reentrancyFindings g) (c, w) = 0) := by
  have hcp : c ∈ points g := instrAt_mem_points hc
  have hwp : w ∈ points g := instrAt_mem_points hw
  have hnd : (reentrancyFindings g).Nodup :=
    List.Nodup.filter _ (List.Nodup.product (nodup_points g) (nodup_points g))
  constructor
  · rintro ⟨hf, r, hr, hrreach, hrc⟩
    have hA : isExtB (instrAt? g c) = true := by
      rw [hc]
      rfl
    have hB : reachB g g.blocks.length 0 c.1 = true := (reach_iff hwf).mp hreach
    have hF : followsB g c w = true := (follows_iff hwf).mp hf
    have hRr : isReadOfB (instrAt? g r) s = true := by
      rw [hr]
      simp [isReadOfB]
    have hRb : reachB g g.blocks.length 0 r.1 = true := (reach_iff hwf).mp hrreach
    have hRf : followsB g r c = true := (follows_iff hwf).mp hrc
    have hany : (points g).any (fun r2 =>
        isReadOfB (instrAt? g r2) s && reachB g g.blocks.length 0 r2.1 &&
          followsB g r2 c) = true := by
      rw [List.any_eq_true]
      refine ⟨r, instrAt_mem_points hr, ?_⟩
      rw [hRr, hRb, hRf]
      rfl
    have hcond : reentryCondB g c w = true := by
      unfold reentryCondB
      rw [hw]
      show (isExtB (instrAt? g c) && reachB g g.blocks.length 0 c.1 &&
        (followsB g c w && (points g).any (fun r2 =>
          isReadOfB (instrAt? g r2) s && reachB g g.blocks.length 0 r2.1 &&
            followsB g r2 c))) = true
      rw [hA, hB, hF, hany]
      rfl
    have hmem : (c, w) ∈ reentrancyFindings g := by
      rw [reentrancyFindings, List.mem_filter]
      exact ⟨List.mem_product.mpr ⟨hcp, hwp⟩, hcond⟩
    exact countEq_eq_one hnd hmem
  · intro hnf
    apply countEq_eq_zero
    intro hmem
    rw [reentrancyFindings, List.mem_filter] at hmem
    have hcond : reentryCondB g c w = true := hmem.2
    unfold reentryCondB at hcond
    rw [hw] at hcond
    have hcond2 : (isExtB (instrAt? g c) && reachB g g.blocks.length 0 c.1 &&
        (followsB g c w && (points g).any (fun r2 =>
          isReadOfB (instrAt? g r2) s && reachB g g.blocks.length 0 r2.1 &&
            followsB g r2 c))) = true := hcond
    simp only [Bool.and_eq_true] at hcond2
    have hF := hcond2.2.1
    exact hnf ((follows_iff hwf).mpr hF)

/-- Witness for C7 at the concrete two-block CFG `gW`: the external call at
point (0,1) is followed (via the single edge) by the write of slot 0 at
point (1,0), and slot 0 was read at (0,0) before the call, so the pass
reports exactly one Finding for the pair. -/
theorem c7_reentrancy_pair_unique_witness :
    countEq (reentrancyFindings gW) ((0, 1), (1, 0)) = 1 :=
  (c7_reentrancy_pair_unique gW (0, 1) (1, 0) 0 (by unfold WF; decide) rfl
      (reaches_refl gW 0) rfl).1
    ⟨Or.inr ⟨1, by decide, reaches_refl gW 1⟩,
     (0, 0), rfl, reaches_refl gW 0, Or.inl ⟨rfl, by decide⟩⟩

/-- C1: on every Analyze invocation the run with `verbose = true` and the run
with `verbose = false` return the same result and produce the same event
trace except for an inserted block `mid` of printed pass-name lines (empty or
exactly `verboseHeader`); in particular, whenever the file reads and parses,
the block after `mid` is in both cases the security-analysis invocation on
the parsed AST followed by the identical warning report. -/
theorem c1_analyze_verbose_only_prints (env : Env) (p : String) :
    ∃ pre mid post res,
      runCmd env (Commands.analyze p true) = some (pre ++ (mid ++ post), res) ∧
      runCmd env (Commands.analyze p false) = some (pre ++ post, res) ∧
      (mid = [] ∨ mid = verboseHeader p) ∧
      (∀ content ast, env.readFile p = Except.ok content →
        env.parse content = Except.ok ast →
        post = Event.secCall ast :: warningReport (env.secAnalyze ast)) := by
  cases hr : env.readFile p with
  | error e =>
    refine ⟨[], [], [], Except.error (readErrMsg p e), ?_, ?_, Or.inl rfl, ?_⟩
    · simp [runCmd, hr]
    · simp [runCmd, hr]
    · intro content ast hcon _
      exact absurd hcon (by simp)
  | ok content =>
    cases hp : env.parse content with
    | error e =>
      refine ⟨[Event.parseCall content, Event.err ("✗ Parse error: " ++ e)], [], [],
        Except.ok (), ?_, ?_, Or.inl rfl, ?_⟩
      · simp [runCmd, hr, hp]
      · simp [runCmd, hr, hp]
      · intro content2 ast hcon hp2
        have hcc : content = content2 := by simpa using hcon
        subst hcc
        rw [hp] at hp2
        exact absurd hp2 (by simp)
    | ok ast =>
      refine ⟨[Event.parseCall content], verboseHeader p,
        Event.secCall ast :: warningReport (env.secAnalyze ast), Except.ok (),
        ?_, ?_, Or.inr rfl, ?_⟩
      · simp [runCmd, hr, hp]
      · simp [runCmd, hr, hp]
      · intro content2 ast2 hcon hp2
        have hcc : content = content2 := by simpa using hcon
        subst hcc
        rw [hp] at hp2
        have haa : ast = ast2 := by simpa using hp2
        subst haa
        rfl

/-- C3: on an Analyze invocation whose file reads and parses, main returns
Ok(()) no matter how many warnings the analyzer produces, and the trace ends
with exactly one printed line per warning, preceded (when the warning list is
non-empty) by the count line showing the number of warnings. -/
theorem c3_analyze_reports_all_warnings (env : Env) (p : String) (v : Bool)
    (content : String) (ast : AST)
    (h1 : env.readFile p = Except.ok content) (h2 : env.parse content = Except.ok ast) :
    ∃ pre, runCmd env (Commands.analyze p v) =
        some (pre ++ (env.secAnalyze ast).map (fun w => Event.out ("  - " ++ w.dbg)),
          Except.ok ()) ∧
      ((env.secAnalyze ast).length = 0 ∨
        Event.out ("⚠️ Found " ++ toString (env.secAnalyze ast).length ++
          " security warnings:") ∈ pre) := by
  by_cases hws : (env.secAnalyze ast).isEmpty
  · refine ⟨Event.parseCall content :: ((if v then verboseHeader p else []) ++
      [Event.secCall ast, Event.out ("✓ No security issues found.")]), ?_, Or.inl ?_⟩
    · have hnil : env.secAnalyze ast = [] := List.isEmpty_iff.mp hws
      simp [runCmd, h1, h2, warningReport, hws, hnil]
    · rw [List.isEmpty_iff.mp hws]
      rfl
  · refine ⟨Event.parseCall content :: ((if v then verboseHeader p else []) ++
      [Event.secCall ast, Event.out ("⚠️ Found " ++ toString (env.secAnalyze ast).length ++
        " security warnings:")]), ?_, Or.inr ?_⟩
    · simp [runCmd, h1, h2, warningReport, hws]
    · simp

/-- Witness for C3 at the all-succeeding environment `envW`, whose analyzer
reports two warnings. -/
theorem c3_analyze_reports_all_warnings_witness :
    ∃ pre, runCmd envW (Commands.analyze ("a.stc") false) =
        some (pre ++ (envW.secAnalyze ⟨"Module"⟩).map (fun w => Event.out ("  - " ++ w.dbg)),
          Except.ok ()) ∧
      ((envW.secAnalyze ⟨"Module"⟩).length = 0 ∨
        Event.out ("⚠️ Found " ++ toString (envW.secAnalyze ⟨"Module"⟩).length ++
          " security warnings:") ∈ pre) :=
  c3_analyze_reports_all_warnings envW ("a.stc") false ("contract src") ⟨"Module"⟩ rfl rfl

/-- C2: every Build invocation short-circuits at the first fatal error — if
the read fails nothing at all happens; if parsing fails, semantic analysis is
never invoked (nor codegen, nor any file write); if semantic analysis fails,
codegen is never invoked (nor any file write); if codegen fails, no output
file write happens. -/
theorem c2_build_short_circuit (env : Env) (p : String) (o root : Option String) :
    ∃ tr res, runCmd env (Commands.build p o root) = some (tr, res) ∧
      (∀ e, env.readFile p = Except.error e → tr = []) ∧
      (∀ content e, env.readFile p = Except.ok content →
        env.parse content = Except.error e →
        (∀ a rt, Event.analyzeCall a rt ∉ tr) ∧ (∀ a, Event.compileCall a ∉ tr) ∧
          (∀ q bs, Event.fsWrite q bs ∉ tr)) ∧
      (∀ content ast e, env.readFile p = Except.ok content →
        env.parse content = Except.ok ast → env.analyze ast root = Except.error e →
        (∀ a, Event.compileCall a ∉ tr) ∧ (∀ q bs, Event.fsWrite q bs ∉ tr)) ∧
      (∀ content ast m e, env.readFile p = Except.ok content →
        env.parse content = Except.ok ast → env.analyze ast root = Except.ok m →
        env.compile ast = Except.error e →
        (∀ q bs, Event.fsWrite q bs ∉ tr)) := by
  cases hr : env.readFile p with
  | error e0 =>
    refine ⟨[], Except.error (readErrMsg p e0), by simp [runCmd, hr], ?_, ?_, ?_, ?_⟩
    · intro e _
      rfl
    · intro content e h _
      exact absurd h (by simp)
    · intro content ast e h _ _
      exact absurd h (by simp)
    · intro content ast m e h _ _ _
      exact absurd h (by simp)
  | ok content =>
    cases hp : env.parse content with
    | error e0 =>
      refine ⟨[Event.out ("--- Compiling: " ++ p ++ " ---"), Event.parseCall content,
        Event.err ("Parse Error: " ++ e0)], Except.ok (), by simp [runCmd, hr, hp], ?_, ?_, ?_, ?_⟩
      · intro e h
        exact absurd h (by simp)
      · intro content2 e hcc _
        exact ⟨fun a rt => by simp, fun a => by simp, fun q bs => by simp⟩
      · intro content2 ast e hcc hpp _
        have hc2 : content = content2 := by simpa using hcc
        subst hc2
        rw [hp] at hpp
        exact absurd hpp (by simp)
      · intro content2 ast m e hcc hpp _ _
        have hc2 : content = content2 := by simpa using hcc
        subst hc2
        rw [hp] at hpp
        exact absurd hpp (by simp)
    | ok ast =>
      cases ha : env.analyze ast root with
      | error e0 =>
        refine ⟨[Event.out ("--- Compiling: " ++ p ++ " ---"), Event.parseCall content,
          Event.analyzeCall ast root, Event.err ("Semantic Error: " ++ e0)], Except.ok (),
          by simp [runCmd, hr, hp, ha], ?_, ?_, ?_, ?_⟩
        · intro e h
          exact absurd h (by simp)
        · intro content2 e hcc hpp
          have hc2 : content = content2 := by simpa using hcc
          subst hc2
          rw [hp] at hpp
          exact absurd hpp (by simp)
        · intro content2 ast2 e hcc hpp _
          exact ⟨fun a => by simp, fun q bs => by simp⟩
        · intro content2 ast2 m e hcc hpp haa _
          have hc2 : content = content2 := by simpa using hcc
          subst hc2
          rw [hp] at hpp
          have ha2 : ast = ast2 := by simpa using hpp
          subst ha2
          rw [ha] at haa
          exact absurd haa (by simp)
      | ok m0 =>
        cases hc : env.compile ast with
        | error e0 =>
          refine ⟨[Event.out ("--- Compiling: " ++ p ++ " ---"), Event.parseCall content,
            Event.analyzeCall ast root, Event.compileCall ast,
            Event.err ("Codegen Error: " ++ e0)], Except.ok (),
            by simp [runCmd, hr, hp, ha, hc], ?_, ?_, ?_, ?_⟩
          · intro e h
            exact absurd h (by simp)
          · intro content2 e hcc hpp
            have hc2 : content = content2 := by simpa using hcc
            subst hc2
            rw [hp] at hpp
            exact absurd hpp (by simp)
          · intro content2 ast2 e hcc hpp haa
            have hc2 : content = content2 := by simpa using hcc
            subst hc2
            rw [hp] at hpp
            have ha2 : ast = ast2 := by simpa using hpp
            subst ha2
            rw [ha] at haa
            exact absurd haa (by simp)
          · intro content2 ast2 m e hcc hpp haa hco
            refine fun q bs => by simp
        | ok bytes =>
          cases hwb : env.writeBytes (o.getD (withExtension p ("wasm"))) bytes with
          | error e0 =>
            refine ⟨[Event.out ("--- Compiling: " ++ p ++ " ---"), Event.parseCall content,
              Event.analyzeCall ast root, Event.compileCall ast,
              Event.fsWrite (o.getD (withExtension p ("wasm"))) bytes],
              Except.error (writeErrMsg (o.getD (withExtension p ("wasm"))) e0),
              by simp [runCmd, hr, hp, ha, hc, hwb], ?_, ?_, ?_, ?_⟩
            · intro e h
              exact absurd h (by simp)
            · intro content2 e hcc hpp
              have hc2 : content = content2 := by simpa using hcc
              subst hc2
              rw [hp] at hpp
              exact absurd hpp (by simp)
            · intro content2 ast2 e hcc hpp haa
              have hc2 : content = content2 := by simpa using hcc
              subst hc2
              rw [hp] at hpp
              have ha2 : ast = ast2 := by simpa using hpp
              subst ha2
              rw [ha] at haa
              exact absurd haa (by simp)
            · intro content2 ast2 m e hcc hpp haa hco
              have hc2 : content = content2 := by simpa using hcc
              subst hc2
              rw [hp] at hpp
              have ha2 : ast = ast2 := by simpa using hpp
              subst ha2
              rw [hc] at hco
              exact absurd hco (by simp)
          | ok u =>
            refine ⟨[Event.out ("--- Compiling: " ++ p ++ " ---"), Event.parseCall content,
              Event.analyzeCall ast root, Event.compileCall ast,
              Event.fsWrite (o.getD (withExtension p ("wasm"))) bytes,
              Event.out ("Build Successful: " ++ (o.getD (withExtension p ("wasm"))))],
              Except.ok (), by simp [runCmd, hr, hp, ha, hc, hwb], ?_, ?_, ?_, ?_⟩
            · intro e h
              exact absurd h (by simp)
            · intro content2 e hcc hpp
              have hc2 : content = content2 := by simpa using hcc
              subst hc2
              rw [hp] at hpp
              exact absurd hpp (by simp)
            · intro content2 ast2 e hcc hpp haa
              have hc2 : content = content2 := by simpa using hcc
              subst hc2
              rw [hp] at hpp
              have ha2 : ast = ast2 := by simpa using hpp
              subst ha2
              rw [ha] at haa
              exact absurd haa (by simp)
            · intro content2 ast2 m e hcc hpp haa hco
              have hc2 : content = content2 := by simpa using hcc
              subst hc2
              rw [hp] at hpp
              have ha2 : ast = ast2 := by simpa using hpp
              subst ha2
              rw [hc] at hco
              exact absurd hco (by simp)

/-- C5: a Build invocation that reaches successful code generation records
exactly one bytecode file write, at the `--output` path when given and
otherwise at the input path with its extension replaced by `wasm`, with
exactly the generated bytes. -/
theorem c5_build_single_output (env : Env) (p : String) (o root : Option String)
    (content : String) (ast : AST) (m : String) (bytes : List Nat)
    (h1 : env.readFile p = Except.ok content) (h2 : env.parse content = Except.ok ast)
    (h3 : env.analyze ast root = Except.ok m) (h4 : env.compile ast = Except.ok bytes) :
    ∃ tr res, runCmd env (Commands.build p o root) = some (tr, res) ∧
      tr.filterMap fsWriteOf = [(o.getD (withExtension p ("wasm")), bytes)] := by
  cases hwb : env.writeBytes (o.getD (withExtension p ("wasm"))) bytes with
  | error e =>
    refine ⟨[Event.out ("--- Compiling: " ++ p ++ " ---"), Event.parseCall content,
      Event.analyzeCall ast root, Event.compileCall ast,
      Event.fsWrite (o.getD (withExtension p ("wasm"))) bytes],
      Except.error (writeErrMsg (o.getD (withExtension p ("wasm"))) e), ?_, ?_⟩
    · simp [runCmd, h1, h2, h3, h4, hwb]
    · simp [fsWriteOf]
  | ok u =>
    refine ⟨[Event.out ("--- Compiling: " ++ p ++ " ---"), Event.parseCall content,
      Event.analyzeCall ast root, Event.compileCall ast,
      Event.fsWrite (o.getD (withExtension p ("wasm"))) bytes,
      Event.out ("Build Successful: " ++ (o.getD (withExtension p ("wasm"))))],
      Except.ok (), ?_, ?_⟩
    · simp [runCmd, h1, h2, h3, h4, hwb]
    · simp [fsWriteOf]

/-- Witness for C5 at `envW` with no `--output`: the single write goes to the
input path with its extension replaced by `wasm`. -/
theorem c5_build_single_output_witness :
    ∃ tr res, runCmd envW (Commands.build ("a/b.stc") none none) = some (tr, res) ∧
      tr.filterMap fsWriteOf =
        [((none : Option String).getD (withExtension ("a/b.stc") ("wasm")),
          [0, 97, 115, 109])] :=
  c5_build_single_output envW ("a/b.stc") none none ("contract src") ⟨"Module"⟩
    ("resolved") [0, 97, 115, 109] rfl rfl rfl rfl

/-- C4: for Parse, Check, Build, and Analyze invocations, pipeline failures
(parse, semantic analysis, codegen) never make `main` return an error — an
error result can only come from a failed file read or, on Build, from a
failed write of the output file. -/
theorem c4_errors_only_from_io (env : Env) (c : Commands) (p : String)
    (hc : c = Commands.parse p ∨ (∃ r, c = Commands.check p r) ∨
      (∃ o r, c = Commands.build p o r) ∨ (∃ v, c = Commands.analyze p v)) :
    ∃ tr res, runCmd env c = some (tr, res) ∧
      ∀ e, res = Except.error e →
        (∃ e0, env.readFile p = Except.error e0) ∨
        (∃ q bs e1, Event.fsWrite q bs ∈ tr ∧ env.writeBytes q bs = Except.error e1) := by
  rcases hc with rfl | ⟨r, rfl⟩ | ⟨o, r, rfl⟩ | ⟨v, rfl⟩
  · cases hr : env.readFile p with
    | error e0 =>
      exact ⟨[], Except.error (readErrMsg p e0), by simp [runCmd, hr],
        fun e _ => Or.inl ⟨e0, rfl⟩⟩
    | ok content =>
      refine ⟨Event.out ("--- Parsing: " ++ p ++ " ---") :: Event.parseCall content ::
        (match env.parse content with
         | Except.ok ast => [Event.out ast.dbg]
         | Except.error e => [Event.err ("Error: " ++ e)]), Except.ok (),
        by simp [runCmd, hr], ?_⟩
      intro e h
      exact absurd h (by simp)
  · cases hr : env.readFile p with
    | error e0 =>
      exact ⟨[], Except.error (readErrMsg p e0), by simp [runCmd, hr],
        fun e _ => Or.inl ⟨e0, rfl⟩⟩
    | ok content =>
      refine ⟨Event.parseCall content ::
        (match env.parse content with
         | Except.ok ast =>
           Event.analyzeCall ast r ::
             (match env.analyze ast r with
              | Except.ok _ => [Event.out ("Semantic Check Passed")]
              | Except.error e => [Event.err ("Semantic Error: " ++ e)])
         | Except.error e => [Event.err ("Parse Error: " ++ e)]), Except.ok (),
        by simp [runCmd, hr], ?_⟩
      intro e h
      exact absurd h (by simp)
  · cases hr : env.readFile p with
    | error e0 =>
      exact ⟨[], Except.error (readErrMsg p e0), by simp [runCmd, hr],
        fun e _ => Or.inl ⟨e0, rfl⟩⟩
    | ok content =>
      cases hp : env.parse content with
      | error e0 =>
        refine ⟨[Event.out ("--- Compiling: " ++ p ++ " ---"), Event.parseCall content,
          Event.err ("Parse Error: " ++ e0)], Except.ok (), by simp [runCmd, hr, hp], ?_⟩
        intro e h
        exact absurd h (by simp)
      | ok ast =>
        cases ha : env.analyze ast r with
        | error e0 =>
          refine ⟨[Event.out ("--- Compiling: " ++ p ++ " ---"), Event.parseCall content,
            Event.analyzeCall ast r, Event.err ("Semantic Error: " ++ e0)], Except.ok (),
            by simp [runCmd, hr, hp, ha], ?_⟩
          intro e h
          exact absurd h (by simp)
        | ok m0 =>
          cases hco : env.compile ast with
          | error e0 =>
            refine ⟨[Event.out ("--- Compiling: " ++ p ++ " ---"), Event.parseCall content,
              Event.analyzeCall ast r, Event.compileCall ast,
              Event.err ("Codegen Error: " ++ e0)], Except.ok (),
              by simp [runCmd, hr, hp, ha, hco], ?_⟩
            intro e h
            exact absurd h (by simp)
          | ok bytes =>
            cases hwb : env.writeBytes (o.getD (withExtension p ("wasm"))) bytes with
            | error e0 =>
              refine ⟨[Event.out ("--- Compiling: " ++ p ++ " ---"), Event.parseCall content,
                Event.analyzeCall ast r, Event.compileCall ast,
                Event.fsWrite (o.getD (withExtension p ("wasm"))) bytes],
                Except.error (writeErrMsg (o.getD (withExtension p ("wasm"))) e0),
                by simp [runCmd, hr, hp, ha, hco, hwb], ?_⟩
              intro e _
              exact Or.inr ⟨o.getD (withExtension p ("wasm")), bytes, e0, by simp, hwb⟩
            | ok u =>
              refine ⟨[Event.out ("--- Compiling: " ++ p ++ " ---"), Event.parseCall content,
                Event.analyzeCall ast r, Event.compileCall ast,
                Event.fsWrite (o.getD (withExtension p ("wasm"))) bytes,
                Event.out ("Build Successful: " ++ (o.getD (withExtension p ("wasm"))))],
                Except.ok (), by simp [runCmd, hr, hp, ha, hco, hwb], ?_⟩
              intro e h
              exact absurd h (by simp)
  · cases hr : env.readFile p with
    | error e0 =>
      exact ⟨[], Except.error (readErrMsg p e0), by simp [runCmd, hr],
        fun e _ => Or.inl ⟨e0, rfl⟩⟩
    | ok content =>
      refine ⟨Event.parseCall content ::
        (match env.parse content with
         | Except.ok ast =>
           (if v then verboseHeader p else []) ++
             Event.secCall ast :: warningReport (env.secAnalyze ast)
         | Except.error e => [Event.err ("✗ Parse error: " ++ e)]), Except.ok (),
        by simp [runCmd, hr], ?_⟩
      intro e h
      exact absurd h (by simp)

/-- Witness for C4: at `envW` a Parse invocation runs and its result is not
an error, so the conclusion holds with the implication vacuous. -/
theorem c4_errors_only_from_io_witness :
    ∃ tr res, runCmd envW (Commands.parse ("a.stc")) = some (tr, res) ∧
      ∀ e, res = Except.error e →
        (∃ e0, envW.readFile ("a.stc") = Except.error e0) ∨
        (∃ q bs e1, Event.fsWrite q bs ∈ tr ∧ envW.writeBytes q bs = Except.error e1) :=
  c4_errors_only_from_io envW (Commands.parse ("a.stc")) ("a.stc") (Or.inl rfl)

/-- C6: on Check and Build the optional root path is forwarded unchanged to
the semantic-analysis invocation, and it is used by no other stage — two
invocations whose roots the analyzer cannot distinguish produce identical
results and identical traces up to the root recorded on the analyzer call. -/
theorem c6_root_only_reaches_analyze (env : Env) (p : String) (o r r2 : Option String)
    (hagree : ∀ a, env.analyze a r = env.analyze a r2) :
    ((runCmd env (Commands.check p r)).map (fun x => (x.1.map scrubRoot, x.2)) =
      (runCmd env (Commands.check p r2)).map (fun x => (x.1.map scrubRoot, x.2))) ∧
    ((runCmd env (Commands.build p o r)).map (fun x => (x.1.map scrubRoot, x.2)) =
      (runCmd env (Commands.build p o r2)).map (fun x => (x.1.map scrubRoot, x.2))) ∧
    (∀ content ast tr res, env.readFile p = Except.ok content →
      env.parse content = Except.ok ast →
      runCmd env (Commands.check p r) = some (tr, res) →
      Event.analyzeCall ast r ∈ tr) ∧
    (∀ content ast tr res, env.readFile p = Except.ok content →
      env.parse content = Except.ok ast →
      runCmd env (Commands.build p o r) = some (tr, res) →
      Event.analyzeCall ast r ∈ tr) := by
  refine ⟨?_, ?_, ?_, ?_⟩
  · cases hr : env.readFile p with
    | error e => simp [runCmd, hr]
    | ok content =>
      cases hp : env.parse content with
      | error e => simp [runCmd, hr, hp]
      | ok ast =>
        cases ha : env.analyze ast r2 with
        | error e => simp [runCmd, hr, hp, ha, hagree ast, scrubRoot]
        | ok m => simp [runCmd, hr, hp, ha, hagree ast, scrubRoot]
  · cases hr : env.readFile p with
    | error e => simp [runCmd, hr]
    | ok content =>
      cases hp : env.parse content with
      | error e => simp [runCmd, hr, hp]
      | ok ast =>
        cases ha : env.analyze ast r2 with
        | error e => simp [runCmd, hr, hp, ha, hagree ast, scrubRoot]
        | ok m =>
          cases hco : env.compile ast with
          | error e => simp [runCmd, hr, hp, ha, hagree ast, hco, scrubRoot]
          | ok bytes =>
            cases hwb : env.writeBytes (o.getD (withExtension p ("wasm"))) bytes with
            | error e => simp [runCmd, hr, hp, ha, hagree ast, hco, hwb, scrubRoot]
            | ok u => simp [runCmd, hr, hp, ha, hagree ast, hco, hwb, scrubRoot]
  · intro content ast tr res h1 h2 hrun
    cases ha : env.analyze ast r with
    | error e =>
      simp only [runCmd, h1, h2, ha] at hrun
      obtain ⟨htr, -⟩ := by simpa using hrun
      subst htr
      simp
    | ok m =>
      simp only [runCmd, h1, h2, ha] at hrun
      obtain ⟨htr, -⟩ := by simpa using hrun
      subst htr
      simp
  · intro content ast tr res h1 h2 hrun
    cases ha : env.analyze ast r with
    | error e =>
      simp only [runCmd, h1, h2, ha] at hrun
      obtain ⟨htr, -⟩ := by simpa using hrun
      subst htr
      simp
    | ok m =>
      cases hco : env.compile ast with
      | error e =>
        simp only [runCmd, h1, h2, ha, hco] at hrun
        obtain ⟨htr, -⟩ := by simpa using hrun
        subst htr
        simp
      | ok bytes =>
        cases hwb : env.writeBytes (o.getD (withExtension p ("wasm"))) bytes with
        | error e =>
          simp only [runCmd, h1, h2, ha, hco, hwb] at hrun
          obtain ⟨htr, -⟩ := by simpa using hrun
          subst htr
          simp
        | ok u =>
          simp only [runCmd, h1, h2, ha, hco, hwb] at hrun
          obtain ⟨htr, -⟩ := by simpa using hrun
          subst htr
          simp

/-- Witness for C6 at `envW`, whose analyzer ignores the root: a Check run
with no root and one with a root agree after scrubbing the recorded root. -/
theorem c6_root_only_reaches_analyze_witness :
    (runCmd envW (Commands.check ("a.stc") none)).map (fun x => (x.1.map scrubRoot, x.2)) =
    (runCmd envW (Commands.check ("a.stc") (some ("lib")))).map
      (fun x => (x.1.map scrubRoot, x.2)) :=
  (c6_root_only_reaches_analyze envW ("a.stc") none none (some ("lib"))
    (fun _ => rfl)).1

/-- C9: the subcommand enumeration declares a Deploy variant (path, network,
root), but the dispatch in `main` has no arm for it — running Deploy produces
no behaviour at all (`none`), while each of the seven handled subcommands
(Lex, Parse, Check, Build, Init, Test, Analyze) always produces a run. -/
theorem c9_deploy_unhandled (env : Env) (p n : String) (r o : Option String) (v : Bool) :
    runCmd env (Commands.deploy p n r) = none ∧
    (runCmd env (Commands.lex p)).isSome ∧
    (runCmd env (Commands.parse p)).isSome ∧
    (runCmd env (Commands.check p r)).isSome ∧
    (runCmd env (Commands.build p o r)).isSome ∧
    (runCmd env (Commands.init p)).isSome ∧
    (runCmd env (Commands.test p)).isSome ∧
    (runCmd env (Commands.analyze p v)).isSome := by
  refine ⟨rfl, ?_, ?_, ?_, ?_, ?_, ?_, ?_⟩
  · cases hr : env.readFile p <;> simp [runCmd, hr]
  · cases hr : env.readFile p <;> simp [runCmd, hr]
  · cases hr : env.readFile p <;> simp [runCmd, hr]
  · cases hr : env.readFile p with
    | error e => simp [runCmd, hr]
    | ok content =>
      cases hp : env.parse content with
      | error e => simp [runCmd, hr, hp]
      | ok ast =>
        cases ha : env.analyze ast r with
        | error e => simp [runCmd, hr, hp, ha]
        | ok m =>
          cases hco : env.compile ast with
          | error e => simp [runCmd, hr, hp, ha, hco]
          | ok bytes =>
            cases hwb : env.writeBytes (o.getD (withExtension p ("wasm"))) bytes with
            | error e => simp [runCmd, hr, hp, ha, hco, hwb]
            | ok u => simp [runCmd, hr, hp, ha, hco, hwb]
  · cases h1 : env.createDir (p ++ "/src") with
    | error e => simp [runCmd, h1]
    | ok u1 =>
      cases h2 : env.createDir (p ++ "/tests") with
      | error e => simp [runCmd, h1, h2]
      | ok u2 =>
        cases h3 : env.writeStr (p ++ "/SwiftSC-Lang.toml") configToml with
        | error e => simp [runCmd, h1, h2, h3]
        | ok u3 =>
          cases h4 : env.writeStr (p ++ "/src/contract.stc") exampleContract with
          | error e => simp [runCmd, h1, h2, h3, h4]
          | ok u4 => simp [runCmd, h1, h2, h3, h4]
  · simp [runCmd]
  · cases hr : env.readFile p <;> simp [runCmd, hr]

/-- C10: an Init invocation on which every filesystem operation succeeds
creates the `src` and `tests` directories and writes the fixed
`SwiftSC-Lang.toml` (whose content contains `gas_metering = true`) and the
fixed example contract to `src/contract.stc`; applied to any starting
filesystem, the trace leaves exactly those contents at those paths,
overwriting whatever was there. -/
theorem c10_init_scaffold (env : Env) (p : String)
    (h1 : env.createDir (p ++ "/src") = Except.ok ())
    (h2 : env.createDir (p ++ "/tests") = Except.ok ())
    (h3 : env.writeStr (p ++ "/SwiftSC-Lang.toml") configToml = Except.ok ())
    (h4 : env.writeStr (p ++ "/src/contract.stc") exampleContract = Except.ok ()) :
    ∃ tr, runCmd env (Commands.init p) = some (tr, Except.ok ()) ∧
      Event.mkdir (p ++ "/src") ∈ tr ∧ Event.mkdir (p ++ "/tests") ∈ tr ∧
      (∀ fs0, applyEvents fs0 tr (p ++ "/SwiftSC-Lang.toml") = some configToml ∧
        applyEvents fs0 tr (p ++ "/src/contract.stc") = some exampleContract) ∧
      (∃ pre post, configToml = pre ++ "gas_metering = true" ++ post) := by
  refine ⟨[Event.out ("--- Initializing SwiftSC-Lang project in: " ++ p ++ " ---"),
    Event.mkdir (p ++ "/src"), Event.mkdir (p ++ "/tests"),
    Event.fsWriteStr (p ++ "/SwiftSC-Lang.toml") configToml,
    Event.fsWriteStr (p ++ "/src/contract.stc") exampleContract,
    Event.out ("✓ Project initialized successfully!"),
    Event.out ("  - SwiftSC-Lang.toml"),
    Event.out ("  - src/contract.stc"),
    Event.out ("  - tests/")], ?_, ?_, ?_, ?_, ?_⟩
  · simp [runCmd, h1, h2, h3, h4]
  · simp
  · simp
  · intro fs0
    have hne : ¬ (p ++ "/SwiftSC-Lang.toml") = (p ++ "/src/contract.stc") := by
      intro h
      have hlen := congrArg String.length h
      rw [String.length_append, String.length_append] at hlen
      have e1 : ("/SwiftSC-Lang.toml" : String).length = 18 := rfl
      have e2 : ("/src/contract.stc" : String).length = 17 := rfl
      rw [e1, e2] at hlen
      omega
    constructor
    · simp [applyEvents, applyEvent, hne]
    · simp [applyEvents, applyEvent]
  · exact ⟨"[package]\nname = \"my-contract\"\nversion = \"1.0.3\"\n\n[dependencies]\n# stdlib is included by default\n\n[build]\ntarget = \"wasm32-unknown-unknown\"\n", "\n", rfl⟩

/-- Witness for C10 at `envW` (all filesystem operations succeed) on the
default path. -/
theorem c10_init_scaffold_witness :
    ∃ tr, runCmd envW (Commands.init (".")) = some (tr, Except.ok ()) ∧
      Event.mkdir ("." ++ "/src") ∈ tr ∧ Event.mkdir ("." ++ "/tests") ∈ tr ∧
      (∀ fs0, applyEvents fs0 tr ("." ++ "/SwiftSC-Lang.toml") = some configToml ∧
        applyEvents fs0 tr ("." ++ "/src/contract.stc") = some exampleContract) ∧
      (∃ pre post, configToml = pre ++ "gas_metering = true" ++ post) :=
  c10_init_scaffold envW (".") rfl rfl rfl rfl

end SwiftSC
